import Mathlib

/-!
Shallow embedding of the Neo4j database replicator
(`DatabaseReplicator` in the repository) and proofs about it.

The replicator copies a source property graph into a target database in
five sequential stages (clearing, schema, nodes, relationships, cleanup),
paging through nodes and relationships in batches, correlating target
nodes with their source node via a transient `source_id` property, and
reporting progress snapshots to an optional observer callback.
-/

namespace PrereqReplicator

/-- Property maps are modelled as association lists from property name to a
    scalar value rendered as a string; the replicator never inspects
    property values, it only carries them along. -/
abbrev Props := List (String × String)

/-- `NodeData` (source file interface): source node id, labels, properties. -/
structure NodeData where
  nodeId : Nat
  labels : List String
  properties : Props
deriving DecidableEq, Repr

/-- `RelationshipData` (source file interface): endpoint source ids, type,
    properties. -/
structure RelationshipData where
  startId : Nat
  endId : Nat
  type : String
  properties : Props
deriving DecidableEq, Repr

/-- A static source graph: the rows returned by the paging queries
    `MATCH (n) ... SKIP/LIMIT` and `MATCH (a)-[r]->(b) ... SKIP/LIMIT`
    in their natural enumeration order. -/
structure SourceGraph where
  nodes : List NodeData
  rels : List RelationshipData
deriving DecidableEq, Repr

/-- A node in the target database: labels it was created with, its
    properties, and the transient `source_id` property (`none` when the
    property is absent). -/
structure TargetNode where
  labels : List String
  properties : Props
  sourceId : Option Nat
deriving DecidableEq, Repr

/-- A relationship in the target database, recording the two matched
    endpoint nodes (as they were when the relationship was created), the
    relationship type and the properties set on it. -/
structure TargetRel where
  startNode : TargetNode
  endNode : TargetNode
  type : String
  properties : Props
deriving DecidableEq, Repr

/-- The target database contents that the replicator writes. -/
structure TargetGraph where
  nodes : List TargetNode
  rels : List TargetRel
deriving DecidableEq, Repr

/-- The `stage` field of `ReplicationProgress`. -/
inductive Stage where
  | clearing
  | schema
  | nodes
  | relationships
  | cleanup
  | complete
deriving DecidableEq, Repr

/-- `ReplicationProgress` snapshots handed to the progress callback. -/
structure ReplicationProgress where
  totalNodes : Nat
  processedNodes : Nat
  totalRelationships : Nat
  processedRelationships : Nat
  stage : Stage
deriving DecidableEq, Repr

/-! ### Label keys and grouping (`createNodesInTarget`, lines 311-339)

`createNodesInTarget` groups a batch by `node.labels.sort().join(',')`,
then per group derives the labels back by `labelKey.split(',')` (empty
key giving no labels) and bulk-creates the group's nodes. -/

/-- Lexicographic comparison of character lists by code value — the order
    JavaScript's default `Array.prototype.sort` uses on strings. -/
def charListLe : List Char → List Char → Bool
  | [], _ => true
  | _ :: _, [] => false
  | a :: as, b :: bs =>
    if a.toNat < b.toNat then true
    else if b.toNat < a.toNat then false
    else charListLe as bs

/-- String comparison for `labels.sort()`. -/
def strLe (a b : String) : Bool :=
  charListLe a.data b.data

/-- JavaScript `labels.sort()`: sorts the label list lexicographically on
    the string code-unit order. -/
def sortLabels (labels : List String) : List String :=
  List.insertionSort (fun a b => strLe a b = true) labels

/-- `node.labels.sort().join(',')` — the canonical label-set key. -/
def labelKey (labels : List String) : String :=
  String.intercalate "," (sortLabels labels)

/-- JavaScript `str.split(',')` on the character level: splits at every
    comma; the empty string yields `[""]`, like in JavaScript. -/
def splitCommaAux : List Char → List Char → List String
  | [], acc => [String.mk acc.reverse]
  | c :: rest, acc =>
    if c = ',' then String.mk acc.reverse :: splitCommaAux rest []
    else splitCommaAux rest (c :: acc)

/-- `labelKey.split(',')`. -/
def splitComma (s : String) : List String :=
  splitCommaAux s.data []

/-- `const labels = labelKey ? labelKey.split(',') : []` — the empty key
    (falsy in JavaScript) yields no labels. -/
def labelsOfKey (k : String) : List String :=
  if k = "" then [] else splitComma k

/-- `labels.length > 0 ? ':' + labels.join(':') : ''` — the label clause
    of the generated `CREATE` statement. -/
def labelClause (labels : List String) : String :=
  if 0 < labels.length then ":" ++ String.intercalate ":" labels else ""

/-- One step of accumulating a record into a `Map<string, T[]>` in
    JavaScript insertion order: append to the existing group of key `k`,
    or add a new group at the end. -/
def groupInsert (m : List (String × List α)) (k : String) (x : α) :
    List (String × List α) :=
  match m with
  | [] => [(k, [x])]
  | (k', xs) :: rest =>
    if k' = k then (k', xs ++ [x]) :: rest else (k', xs) :: groupInsert rest k x

/-- The grouping loop: fold the batch into a key-indexed map, as the
    `for (const node of nodesData)` / `for (const rel of relsData)` loops
    do. -/
def accGroup (key : α → String) (l : List α) : List (String × List α) :=
  l.foldl (fun m x => groupInsert m (key x) x) []

/-- Association lookup in the grouping map (`map.get(key)`). -/
def lookupGroup (m : List (String × List α)) (k : String) : Option (List α) :=
  match m with
  | [] => none
  | (k', xs) :: rest => if k' = k then some xs else lookupGroup rest k

/-- The target node created for source node `n` inside the group with
    label key `k`: labels recovered from the key, `SET n = node.properties,
    n.source_id = node.nodeId`. -/
def mkTargetNode (k : String) (n : NodeData) : TargetNode :=
  ⟨labelsOfKey k, n.properties, some n.nodeId⟩

/-- `createNodesInTarget`: group the batch by canonical label key, then for
    each group create one target node per source node of the group. -/
def createNodesInTarget (batch : List NodeData) : List TargetNode :=
  (((accGroup (fun n => labelKey n.labels) batch)).map
    (fun g => g.2.map (mkTargetNode g.1))).flatten

/-! ### Relationship creation (`createRelationshipsInTarget`, lines 382-413)

The batch is grouped by relationship type; for each relationship the
statement `MATCH (a {source_id: rel.startId}), (b {source_id: rel.endId})
CREATE (a)-[r:TYPE]->(b) SET r = rel.properties` creates one relationship
per pair of matching endpoint nodes (a cartesian product of the two
matches). -/

/-- The target nodes matched by `(x {source_id: sid})`. -/
def matchNodes (nodes : List TargetNode) (sid : Nat) : List TargetNode :=
  nodes.filter (fun tn => tn.sourceId = some sid)

/-- The relationship created for one matched endpoint pair: the group's
    type string is spliced into the statement text, and
    `SET r = rel.properties`. -/
def mkTargetRel (ty : String) (r : RelationshipData) (p : TargetNode × TargetNode) :
    TargetRel :=
  ⟨p.1, p.2, ty, r.properties⟩

/-- The relationships created for a single `RelationshipData` row inside
    the group with type key `ty`. -/
def relCreations (nodes : List TargetNode) (ty : String) (r : RelationshipData) :
    List TargetRel :=
  (List.product (matchNodes nodes r.startId) (matchNodes nodes r.endId)).map
    (mkTargetRel ty r)

/-- `createRelationshipsInTarget`: group the batch by type, then for each
    group run the per-type creation statement over the group's rows. -/
def createRelationshipsInTarget (nodes : List TargetNode)
    (batch : List RelationshipData) : List TargetRel :=
  ((accGroup (fun r => r.type) batch).map
    (fun g => (g.2.map (relCreations nodes g.1)).flatten)).flatten

/-! ### The paging loop (`copyNodes` lines 272-309, `copyRelationships`
lines 341-380)

Both copiers run `while (processed < total) \x7b fetch SKIP processed
LIMIT limit; create; processed += page.length; report processed \x7d`
against a static source list, where `total` is the up-front count.  The
loop is embedded step-indexed with an explicit fuel (the source loop is a
`while` and need not terminate for `limit = 0`); `pageLoop` returns the
fetched pages and the cumulative processed counts reported to the
progress callback, in order. -/

def pageLoop (limit : Nat) (src : List α) :
    Nat → Nat → List (List α) × List Nat
  | 0, _ => ([], [])
  | fuel + 1, processed =>
    if processed < src.length then
      let page := (src.drop processed).take limit
      let rest := pageLoop limit src fuel (processed + page.length)
      (page :: rest.1, (processed + page.length) :: rest.2)
    else ([], [])

/-! ### The orchestrator (`replicateDatabase`, lines 51-106), happy path

Models the error-free run over a static source: the target starts from
the cleared state, the schema stage does not touch graph data, the node
and relationship stages run their paging loops, cleanup removes
`source_id`, and the progress snapshots handed to the observer are
collected in order.  The snapshot object is mutated in place by the
source code; the list records its value at each callback invocation. -/

def replicateModel (batchSize : Nat) (src : SourceGraph) (fuel : Nat) :
    TargetGraph × List ReplicationProgress :=
  let totalNodes := src.nodes.length
  let totalRels := src.rels.length
  let nodeRun := pageLoop batchSize src.nodes fuel 0
  let targetNodes := (nodeRun.1.map createNodesInTarget).flatten
  let pn := nodeRun.2.getLastD 0
  let relRun := pageLoop (batchSize / 2) src.rels fuel 0
  let targetRels := (relRun.1.map (createRelationshipsInTarget targetNodes)).flatten
  let pr := relRun.2.getLastD 0
  let finalNodes := targetNodes.map (fun tn => { tn with sourceId := none })
  let trace :=
    [⟨totalNodes, 0, totalRels, 0, Stage.clearing⟩,
     ⟨totalNodes, 0, totalRels, 0, Stage.schema⟩,
     ⟨totalNodes, 0, totalRels, 0, Stage.nodes⟩]
    ++ nodeRun.2.map (fun c => ⟨totalNodes, c, totalRels, 0, Stage.nodes⟩)
    ++ [⟨totalNodes, pn, totalRels, 0, Stage.relationships⟩]
    ++ relRun.2.map (fun c => ⟨totalNodes, pn, totalRels, c, Stage.relationships⟩)
    ++ [⟨totalNodes, pn, totalRels, pr, Stage.cleanup⟩,
        ⟨totalNodes, pn, totalRels, pr, Stage.complete⟩]
  (⟨finalNodes, targetRels⟩, trace)

/-! ### Schema translation (`copySchema`, lines 160-270)

Each constraint/index row from `SHOW CONSTRAINTS` / `SHOW INDEXES` is
turned into a creation statement (or none, for unsupported kinds) and run
against the target inside a per-item `try/catch`; the catch classifies
"already exists" error codes and logs, and never rethrows. -/

/-- Result of running one statement on the target session: success, or a
    driver error carrying a Neo4j error code. -/
inductive ExecResult where
  | ok
  | err (code : String) (msg : String)
deriving DecidableEq, Repr

/-- A row of `SHOW CONSTRAINTS`. -/
structure ConstraintDescriptor where
  name : String
  type : String
  entityType : String
  labelsOrTypes : List String
  properties : List String
deriving DecidableEq, Repr

/-- A row of `SHOW INDEXES WHERE type <> 'CONSTRAINT'`. -/
structure IndexDescriptor where
  name : String
  type : String
  labelsOrTypes : List String
  properties : List String
deriving DecidableEq, Repr

/-- JavaScript `xs[0]` inside a template literal: a missing element prints
    as `undefined`. -/
def jsHead (xs : List String) : String :=
  xs.headD "undefined"

/-- `properties.map(p => prefixStr + p).join(', ')`. -/
def propList (prefixStr : String) (props : List String) : String :=
  String.intercalate ", " (props.map (fun p => prefixStr ++ p))

/-- The constraint `createStatement` built by lines 178-202; `none` models
    the empty statement (unsupported kind, skipped with a warning). -/
def genConstraintStatement (c : ConstraintDescriptor) : Option String :=
  let s :=
    if c.type = "UNIQUENESS" then
      if c.entityType = "NODE" then
        "CREATE CONSTRAINT " ++ c.name ++ " FOR (n:" ++ jsHead c.labelsOrTypes
          ++ ") REQUIRE (" ++ propList "n." c.properties ++ ") IS UNIQUE"
      else if c.entityType = "RELATIONSHIP" then
        "CREATE CONSTRAINT " ++ c.name ++ " FOR ()-[r:" ++ jsHead c.labelsOrTypes
          ++ "]-() REQUIRE (" ++ propList "r." c.properties ++ ") IS UNIQUE"
      else ""
    else if c.type = "NODE_PROPERTY_EXISTENCE" ∨ c.type = "EXISTENCE" then
      "CREATE CONSTRAINT " ++ c.name ++ " FOR (n:" ++ jsHead c.labelsOrTypes
        ++ ") REQUIRE n." ++ jsHead c.properties ++ " IS NOT NULL"
    else if c.type = "RELATIONSHIP_PROPERTY_EXISTENCE" then
      "CREATE CONSTRAINT " ++ c.name ++ " FOR ()-[r:" ++ jsHead c.labelsOrTypes
        ++ "]-() REQUIRE r." ++ jsHead c.properties ++ " IS NOT NULL"
    else if c.type = "NODE_KEY" then
      "CREATE CONSTRAINT " ++ c.name ++ " FOR (n:" ++ jsHead c.labelsOrTypes
        ++ ") REQUIRE (" ++ propList "n." c.properties ++ ") IS NODE KEY"
    else ""
  if s = "" then none else some s

/-- The index `createStatement` built by lines 231-248.  The `BTREE`
    branch is guarded by `labelsOrTypes.length > 0 && labelsOrTypes[0]`
    (first label present and truthy, i.e. nonempty). -/
def genIndexStatement (i : IndexDescriptor) : Option String :=
  let s :=
    if i.type = "BTREE" then
      if 0 < i.labelsOrTypes.length ∧ jsHead i.labelsOrTypes ≠ "" then
        "CREATE INDEX " ++ i.name ++ " FOR (n:" ++ jsHead i.labelsOrTypes
          ++ ") ON (" ++ propList "n." i.properties ++ ")"
      else ""
    else if i.type = "TEXT" then
      "CREATE TEXT INDEX " ++ i.name ++ " FOR (n:" ++ jsHead i.labelsOrTypes
        ++ ") ON (n." ++ jsHead i.properties ++ ")"
    else if i.type = "FULLTEXT" then
      "CREATE FULLTEXT INDEX " ++ i.name ++ " FOR (n:"
        ++ String.intercalate "|" i.labelsOrTypes ++ ") ON EACH ["
        ++ String.intercalate ", " (i.properties.map (fun p => "\x27" ++ p ++ "\x27"))
        ++ "]"
    else ""
  if s = "" then none else some s

/-- Error codes classified as "constraint already exists" (line 212-213). -/
def constraintExistsCodes : List String :=
  ["Neo.ClientError.Schema.ConstraintAlreadyExists",
   "Neo.ClientError.Schema.EquivalentSchemaRuleAlreadyExists"]

/-- Error codes classified as "index already exists" (line 258-259). -/
def indexExistsCodes : List String :=
  ["Neo.ClientError.Schema.IndexAlreadyExists",
   "Neo.ClientError.Schema.EquivalentSchemaRuleAlreadyExists"]

/-- What happened to one schema item. -/
inductive ItemOutcome where
  | created
  | skippedUnsupported
  | alreadyExists
  | failedOther
deriving DecidableEq, Repr

/-- One iteration of a schema-item loop: build the statement, run it, and
    classify any error against the given "already exists" codes.  The
    `catch` block never rethrows, so the iteration always yields an
    outcome. -/
def runSchemaItem (existsCodes : List String) (exec : String → ExecResult)
    (stmt : Option String) : ItemOutcome :=
  match stmt with
  | none => ItemOutcome.skippedUnsupported
  | some s =>
    match exec s with
    | ExecResult.ok => ItemOutcome.created
    | ExecResult.err code _ =>
      if code ∈ existsCodes then ItemOutcome.alreadyExists
      else ItemOutcome.failedOther

/-- `copySchema`: process every constraint, then every index; since no
    per-item failure escapes its `catch`, the stage is a total map over
    the items. -/
def copySchema (exec : String → ExecResult) (cs : List ConstraintDescriptor)
    (idxs : List IndexDescriptor) : List ItemOutcome × List ItemOutcome :=
  (cs.map (fun c => runSchemaItem constraintExistsCodes exec (genConstraintStatement c)),
   idxs.map (fun i => runSchemaItem indexExistsCodes exec (genIndexStatement i)))

/-! ### Failure propagation (`replicateDatabase` catch, lines 102-105;
`close`, lines 453-458)

Control-flow/resource model of a run with an injected stage failure.
Each helper opens sessions and closes them in `finally`, so a failing
stage still emits its session-close event; the orchestrator's `catch`
logs the error and rethrows it.  `close()` (which closes the two drivers)
is a separate method that `replicateDatabase` never calls. -/

inductive StageName where
  | counts
  | clearing
  | schema
  | nodes
  | relationships
  | cleanup
deriving DecidableEq, Repr

inductive RunEvent where
  | stageStarted (s : StageName)
  | sessionClosed (s : StageName)
  | errorLogged
  | rethrown
  | driversClosed
deriving DecidableEq, Repr

/-- One stage helper: runs, closes its session(s) in `finally`, and either
    succeeds or raises (when the injected failure targets it). -/
def runStage (failAt : Option StageName) (s : StageName) :
    Except String Unit × List RunEvent :=
  if failAt = some s then
    (Except.error "failure", [RunEvent.stageStarted s, RunEvent.sessionClosed s])
  else
    (Except.ok (), [RunEvent.stageStarted s, RunEvent.sessionClosed s])

/-- The `try` block: run the stages in order, stopping at the first error;
    the enclosing `catch` logs the error and rethrows (`throw error`),
    emitting no driver-close event. -/
def goStages (failAt : Option StageName) :
    List StageName → List RunEvent → Except String Unit × List RunEvent
  | [], evs => (Except.ok (), evs)
  | s :: rest, evs =>
    let r := runStage failAt s
    match r.1 with
    | Except.ok _ => goStages failAt rest (evs ++ r.2)
    | Except.error m =>
      (Except.error m, evs ++ r.2 ++ [RunEvent.errorLogged, RunEvent.rethrown])

/-- The fixed stage order of `replicateDatabase` (count query, then the
    five stages). -/
def stageOrder : List StageName :=
  [StageName.counts, StageName.clearing, StageName.schema, StageName.nodes,
   StageName.relationships, StageName.cleanup]

/-- `replicateDatabase` with an injected failure at the given stage
    (`none` for a clean run): its result and the resource events emitted,
    in order. -/
def replicateDatabaseRun (failAt : Option StageName) :
    Except String Unit × List RunEvent :=
  goStages failAt stageOrder []

/-- `close()`: closes the source and target drivers.  It is the only place
    the drivers are released, and it is invoked by the caller, not by
    `replicateDatabase`. -/
def closeRun : List RunEvent :=
  [RunEvent.driversClosed]

/-! ### Step-indexed paging-loop semantics (termination analysis)

`loopIter total pageLen n` is the value of `processed` after `n`
iterations of `while (processed < total)`, where `pageLen skip` is the
number of records the page query returns at offset `skip`
(`nodesResult.records.length` / `relsResult.records.length`); the counter
advances only by that number (lines 282-305 and 351-376). -/

def loopIter (total : Nat) (pageLen : Nat → Nat) : Nat → Nat
  | 0 => 0
  | n + 1 =>
    let p := loopIter total pageLen n
    if p < total then p + pageLen p else p

/-- The loop has terminated when `processed` has reached the total. -/
def loopTerminates (total : Nat) (pageLen : Nat → Nat) : Prop :=
  ∃ n, total ≤ loopIter total pageLen n

/-! ### Order facts about the label-sort comparison -/

theorem charListLe_total : ∀ a b : List Char, charListLe a b = true ∨ charListLe b a = true
  | [], _ => Or.inl rfl
  | _ :: _, [] => Or.inr rfl
  | a :: as, b :: bs => by
    by_cases hab : a.toNat < b.toNat
    · exact Or.inl (by simp [charListLe, hab])
    · by_cases hba : b.toNat < a.toNat
      · exact Or.inr (by simp [charListLe, hba])
      · rcases charListLe_total as bs with h | h
        · exact Or.inl (by simp [charListLe, hab, hba, h])
        · exact Or.inr (by simp [charListLe, hab, hba, h])

theorem charListLe_trans : ∀ a b c : List Char,
    charListLe a b = true → charListLe b c = true → charListLe a c = true
  | [], _, _, _, _ => rfl
  | _ :: _, [], _, h, _ => by simp [charListLe] at h
  | _ :: _, _ :: _, [], _, h => by simp [charListLe] at h
  | a :: as, b :: bs, c :: cs, h₁, h₂ => by
    simp only [charListLe] at h₁ h₂ ⊢
    by_cases hab : a.toNat < b.toNat <;> by_cases hba : b.toNat < a.toNat <;>
      by_cases hbc : b.toNat < c.toNat <;> by_cases hcb : c.toNat < b.toNat <;>
      by_cases hac : a.toNat < c.toNat <;> by_cases hca : c.toNat < a.toNat <;>
      simp [hab, hba, hbc, hcb, hac, hca] at h₁ h₂ ⊢ <;>
      first
        | omega
        | exact charListLe_trans as bs cs h₁ h₂

/-- Characters with equal code values are equal. -/
theorem char_toNat_inj {a b : Char} (h : a.toNat = b.toNat) : a = b :=
  Char.eq_of_val_eq (UInt32.toNat.inj h)

theorem charListLe_antisymm : ∀ a b : List Char,
    charListLe a b = true → charListLe b a = true → a = b
  | [], [], _, _ => rfl
  | [], _ :: _, _, h => by simp [charListLe] at h
  | _ :: _, [], h, _ => by simp [charListLe] at h
  | a :: as, b :: bs, h₁, h₂ => by
    simp only [charListLe] at h₁ h₂
    by_cases hab : a.toNat < b.toNat <;> by_cases hba : b.toNat < a.toNat <;>
      simp [hab, hba] at h₁ h₂
    · omega
    · have ha : a = b := char_toNat_inj (by omega)
      rw [ha, charListLe_antisymm as bs h₁ h₂]

instance strLeTotal : IsTotal String (fun a b => strLe a b = true) :=
  ⟨fun a b => charListLe_total a.data b.data⟩

instance strLeTrans : IsTrans String (fun a b => strLe a b = true) :=
  ⟨fun a b c => charListLe_trans a.data b.data c.data⟩

instance strLeAntisymm : IsAntisymm String (fun a b => strLe a b = true) :=
  ⟨fun a b h₁ h₂ => by
    have h := charListLe_antisymm a.data b.data h₁ h₂
    cases a
    cases b
    exact congrArg String.mk h⟩

/-! ### Grouping lemmas -/

/-- All records accumulated in a grouping map, in group order. -/
def groupVals (m : List (String × List α)) : List α :=
  (m.map Prod.snd).flatten

theorem groupVals_groupInsert (m : List (String × List α)) (k : String) (x : α) :
    List.Perm (groupVals (groupInsert m k x)) (x :: groupVals m) := by
  induction m with
  | nil => simp [groupInsert, groupVals]
  | cons hd rest ih =>
    obtain ⟨k', xs⟩ := hd
    by_cases h : k' = k
    · simp only [groupInsert, if_pos h, groupVals, List.map_cons, List.flatten_cons]
      rw [List.append_assoc]
      exact List.perm_middle
    · simp only [groupInsert, if_neg h, groupVals, List.map_cons, List.flatten_cons]
      exact ((ih).append_left xs).trans List.perm_middle

theorem groupVals_foldl (key : α → String) :
    ∀ (l : List α) (m : List (String × List α)),
      List.Perm (groupVals (l.foldl (fun m x => groupInsert m (key x) x) m))
        (groupVals m ++ l)
  | [], m => by simp
  | x :: rest, m => by
    simp only [List.foldl_cons]
    exact (groupVals_foldl key rest _).trans
      (((groupVals_groupInsert m (key x) x).append_right rest).trans List.perm_middle.symm)

/-- The records in a grouping map are a permutation of the batch. -/
theorem groupVals_accGroup (key : α → String) (l : List α) :
    List.Perm (groupVals (accGroup key l)) l := by
  have h := groupVals_foldl key l []
  simpa [groupVals] using h

/-- Every record of a group carries the group's key. -/
def GroupInv (key : α → String) (m : List (String × List α)) : Prop :=
  ∀ p ∈ m, ∀ y ∈ p.2, key y = p.1

theorem groupInsert_inv {key : α → String} {m : List (String × List α)} {k : String}
    {x : α} (inv : GroupInv key m) (hx : key x = k) :
    GroupInv key (groupInsert m k x) := by
  induction m with
  | nil =>
    intro p hp y hy
    simp only [groupInsert, List.mem_singleton] at hp
    subst hp
    simp only [List.mem_singleton] at hy
    subst hy
    exact hx
  | cons hd rest ih =>
    obtain ⟨k', xs⟩ := hd
    intro p hp y hy
    by_cases h : k' = k
    · simp only [groupInsert, if_pos h, List.mem_cons] at hp
      rcases hp with hp | hp
      · subst hp
        simp only [List.mem_append, List.mem_singleton] at hy
        rcases hy with hy | hy
        · exact inv (k', xs) (List.mem_cons_self _ _) y hy
        · subst hy
          rw [hx, h]
      · exact inv p (List.mem_cons_of_mem _ hp) y hy
    · simp only [groupInsert, if_neg h, List.mem_cons] at hp
      rcases hp with hp | hp
      · subst hp
        exact inv (k', xs) (List.mem_cons_self _ _) y hy
      · exact ih (fun q hq => inv q (List.mem_cons_of_mem _ hq)) p hp y hy

theorem accGroup_inv (key : α → String) (l : List α) :
    GroupInv key (accGroup key l) := by
  suffices h : ∀ (l : List α) (m : List (String × List α)), GroupInv key m →
      GroupInv key (l.foldl (fun m x => groupInsert m (key x) x) m) by
    exact h l [] (by intro p hp; simp at hp)
  intro l
  induction l with
  | nil => intro m hm; simpa using hm
  | cons x rest ih =>
    intro m hm
    simp only [List.foldl_cons]
    exact ih _ (groupInsert_inv hm rfl)

theorem lookupGroup_groupInsert_self (m : List (String × List α)) (k : String) (x : α) :
    lookupGroup (groupInsert m k x) k = some ((lookupGroup m k).getD [] ++ [x]) := by
  induction m with
  | nil => simp [groupInsert, lookupGroup]
  | cons hd rest ih =>
    obtain ⟨k', xs⟩ := hd
    by_cases h : k' = k <;> simp [groupInsert, lookupGroup, h, ih]

theorem lookupGroup_groupInsert_ne (m : List (String × List α)) (k' k : String) (x : α)
    (h : k' ≠ k) : lookupGroup (groupInsert m k' x) k = lookupGroup m k := by
  induction m with
  | nil => simp [groupInsert, lookupGroup, h]
  | cons hd rest ih =>
    obtain ⟨k'', xs⟩ := hd
    by_cases h2 : k'' = k'
    · subst h2
      simp [groupInsert, lookupGroup, h]
    · by_cases h3 : k'' = k <;>
        simp [groupInsert, lookupGroup, h2, h3, ih, Ne.symm h]

theorem mem_lookup_foldl {key : α → String} (l : List α) (m : List (String × List α))
    (k : String) (y : α) (hy : y ∈ (lookupGroup m k).getD []) :
    y ∈ (lookupGroup (l.foldl (fun m x => groupInsert m (key x) x) m) k).getD [] := by
  induction l generalizing m with
  | nil => simpa using hy
  | cons x rest ih =>
    simp only [List.foldl_cons]
    apply ih
    by_cases h : key x = k
    · rw [h, lookupGroup_groupInsert_self]
      simp only [Option.getD_some, List.mem_append]
      exact Or.inl hy
    · rw [lookupGroup_groupInsert_ne _ _ _ _ h]
      exact hy

/-- Every batch record lands in the group of its own key. -/
theorem mem_lookup_accGroup {key : α → String} (l : List α) (x : α) (hx : x ∈ l) :
    x ∈ (lookupGroup (accGroup key l) (key x)).getD [] := by
  suffices h : ∀ (l : List α) (m : List (String × List α)), x ∈ l →
      x ∈ (lookupGroup (l.foldl (fun m z => groupInsert m (key z) z) m) (key x)).getD [] by
    exact h l [] hx
  intro l
  induction l with
  | nil => intro m hm; simp at hm
  | cons z rest ih =>
    intro m hm
    simp only [List.foldl_cons]
    rcases List.mem_cons.mp hm with hm | hm
    · subst hm
      apply mem_lookup_foldl
      rw [lookupGroup_groupInsert_self]
      simp
    · exact ih _ hm

theorem lookupGroup_mem (m : List (String × List α)) (k : String) (xs : List α)
    (h : lookupGroup m k = some xs) : (k, xs) ∈ m := by
  induction m with
  | nil => simp [lookupGroup] at h
  | cons hd rest ih =>
    obtain ⟨k', ys⟩ := hd
    by_cases h2 : k' = k
    · simp only [lookupGroup, if_pos h2] at h
      subst h2
      injection h with h
      subst h
      exact List.mem_cons_self _ _
    · simp only [lookupGroup, if_neg h2] at h
      exact List.mem_cons_of_mem _ (ih h)

/-! ### Node-creation lemmas -/

/-- The target node created for a source node, expressed through the
    node's own canonical key. -/
def targetOf (n : NodeData) : TargetNode :=
  mkTargetNode (labelKey n.labels) n

/-- Grouping permutes but neither drops nor duplicates: the created batch
    is a permutation of the per-node images. -/
theorem createNodesInTarget_perm (batch : List NodeData) :
    List.Perm (createNodesInTarget batch) (batch.map targetOf) := by
  unfold createNodesInTarget
  have inv := accGroup_inv (fun n => labelKey n.labels) batch
  have hcongr : (accGroup (fun n => labelKey n.labels) batch).map
        (fun g => g.2.map (mkTargetNode g.1))
      = (accGroup (fun n => labelKey n.labels) batch).map
        (fun g => g.2.map targetOf) := by
    apply List.map_congr_left
    intro g hg
    apply List.map_congr_left
    intro y hy
    exact congrArg (fun k => mkTargetNode k y) ((inv g hg y hy).symm)
  rw [hcongr]
  have hmm : (accGroup (fun n => labelKey n.labels) batch).map
        (fun g => g.2.map targetOf)
      = ((accGroup (fun n => labelKey n.labels) batch).map Prod.snd).map
        (List.map targetOf) := by
    rw [List.map_map]
    rfl
  rw [hmm, ← List.map_flatten]
  exact (groupVals_accGroup (fun n => labelKey n.labels) batch).map targetOf

theorem createNodesInTarget_length (batch : List NodeData) :
    (createNodesInTarget batch).length = batch.length := by
  have h := (createNodesInTarget_perm batch).length_eq
  simpa using h

/-! ### Paging-loop lemmas -/

theorem pageLoop_of_le (limit : Nat) (src : List α) (fuel processed : Nat)
    (h : src.length ≤ processed) :
    pageLoop limit src fuel processed = ([], []) := by
  cases fuel with
  | zero => rfl
  | succ n => simp [pageLoop, Nat.not_lt.mpr h]

theorem length_snd_pageLoop (limit : Nat) (src : List α) :
    ∀ fuel processed,
      (pageLoop limit src fuel processed).2.length
        = (pageLoop limit src fuel processed).1.length
  | 0, _ => rfl
  | fuel + 1, processed => by
    by_cases hp : processed < src.length <;>
      simp [pageLoop, hp, length_snd_pageLoop limit src fuel]

/-- Auxiliary: the fetched page glued back onto the remaining suffix. -/
theorem take_append_drop_length_take (l : List α) (n : Nat) :
    l.take n ++ l.drop (l.take n).length = l := by
  by_cases h : n ≤ l.length
  · have hl : (l.take n).length = n := by
      simp [List.length_take]
      omega
    rw [hl, List.take_append_drop]
  · have h1 : l.take n = l := List.take_of_length_le (by omega)
    rw [h1, List.drop_eq_nil_of_le (Nat.le_refl _), List.append_nil]

/-- With a positive page limit, a static source, and enough fuel, the
    paging loop fetches exactly the suffix of the source it starts at. -/
theorem pageLoop_flatten (limit : Nat) (src : List α) :
    ∀ fuel processed, 1 ≤ limit → src.length ≤ processed + fuel →
      ((pageLoop limit src fuel processed).1).flatten = src.drop processed
  | 0, processed, _, h => by
    have hle : src.length ≤ processed := by omega
    simp [pageLoop, List.drop_eq_nil_of_le hle]
  | fuel + 1, processed, hl, h => by
    by_cases hp : processed < src.length
    · have hlen : 1 ≤ ((src.drop processed).take limit).length := by
        simp [List.length_take, List.length_drop]
        omega
      have hrec := pageLoop_flatten limit src fuel
        (processed + ((src.drop processed).take limit).length) hl (by omega)
      simp only [pageLoop, if_pos hp, List.flatten_cons]
      rw [hrec]
      have hd : src.drop (processed + ((src.drop processed).take limit).length)
          = (src.drop processed).drop ((src.drop processed).take limit).length := by
        rw [List.drop_drop]
      rw [hd, take_append_drop_length_take]
    · have hle : src.length ≤ processed := by omega
      simp [pageLoop, hp, List.drop_eq_nil_of_le hle]

/-! ### Relationship-counting lemmas -/

/-- The number of relationships the creation statement produces for one
    source relationship: the product of its two endpoint match counts. -/
def endpointMatches (nodes : List TargetNode) (r : RelationshipData) : Nat :=
  (matchNodes nodes r.startId).length * (matchNodes nodes r.endId).length

theorem relCreations_length (nodes : List TargetNode) (ty : String)
    (r : RelationshipData) :
    (relCreations nodes ty r).length = endpointMatches nodes r := by
  simp only [relCreations, endpointMatches, List.length_map]
  exact List.length_product _ _

theorem createRelationshipsInTarget_length (nodes : List TargetNode)
    (batch : List RelationshipData) :
    (createRelationshipsInTarget nodes batch).length
      = ((batch.map (endpointMatches nodes)).sum) := by
  unfold createRelationshipsInTarget
  rw [List.length_flatten, List.map_map]
  have hcongr : ∀ g ∈ accGroup (fun r => r.type) batch,
      (List.length ∘ fun g : String × List RelationshipData =>
        (g.2.map (relCreations nodes g.1)).flatten) g
      = ((g.2.map (endpointMatches nodes)).sum) := by
    intro g _
    simp only [Function.comp_apply, List.length_flatten, List.map_map]
    congr 1
    apply List.map_congr_left
    intro r _
    simp [relCreations_length]
  rw [List.map_congr_left hcongr]
  have hperm := (groupVals_accGroup (fun r => r.type) batch).map (endpointMatches nodes)
  have hsum := hperm.sum_eq
  rw [← hsum, groupVals]
  rw [List.map_flatten, List.map_map]
  rw [List.sum_flatten, List.map_map]
  rfl

/-- All node pages together create a permutation of the per-node images of
    the fetched rows. -/
theorem flatten_createNodes_perm :
    ∀ pages : List (List NodeData),
      List.Perm ((pages.map createNodesInTarget).flatten)
        ((pages.flatten).map targetOf)
  | [] => List.Perm.refl _
  | p :: ps => by
    simp only [List.map_cons, List.flatten_cons, List.map_append]
    exact (createNodesInTarget_perm p).append (flatten_createNodes_perm ps)

/-- In a batch with pairwise-distinct node ids, exactly one row carries a
    given id that occurs in the batch. -/
theorem countP_nodeId_eq_one (src : List NodeData) (sid : Nat)
    (hnd : (src.map (fun n => n.nodeId)).Nodup)
    (hmem : sid ∈ src.map (fun n => n.nodeId)) :
    src.countP (fun n => decide (n.nodeId = sid)) = 1 := by
  induction src with
  | nil => simp at hmem
  | cons n rest ih =>
    simp only [List.map_cons, List.nodup_cons] at hnd
    simp only [List.map_cons, List.mem_cons] at hmem
    by_cases h : n.nodeId = sid
    · rw [List.countP_cons_of_pos _ _ (by simpa using h)]
      have hz : rest.countP (fun n => decide (n.nodeId = sid)) = 0 := by
        rw [List.countP_eq_zero]
        intro a ha
        simp only [decide_eq_true_eq]
        intro heq
        exact hnd.1 (by rw [h, ← heq]; exact List.mem_map_of_mem _ ha)
      rw [hz]
    · rcases hmem with h' | h'
      · exact absurd h'.symm h
      · rw [List.countP_cons_of_neg _ _ (by simpa using h)]
        exact ih hnd.2 h'

/-- After the nodes stage, each node id that occurs in the (duplicate-free)
    source matches exactly one target node by `source_id`. -/
theorem matchNodes_length_one (src : List NodeData) (tns : List TargetNode)
    (hperm : List.Perm tns (src.map targetOf)) (sid : Nat)
    (hnd : (src.map (fun n => n.nodeId)).Nodup)
    (hmem : sid ∈ src.map (fun n => n.nodeId)) :
    (matchNodes tns sid).length = 1 := by
  unfold matchNodes
  rw [← List.countP_eq_length_filter, hperm.countP_eq, List.countP_map]
  have hcongr : ∀ n ∈ src,
      (((fun tn : TargetNode => decide (tn.sourceId = some sid)) ∘ targetOf) n = true
        ↔ (fun n : NodeData => decide (n.nodeId = sid)) n = true) := by
    intro n _
    simp [targetOf, mkTargetNode]
  rw [List.countP_congr hcongr]
  exact countP_nodeId_eq_one src sid hnd hmem

/-- All relationship pages together create one target relationship per
    endpoint-match pair of each fetched row. -/
theorem flatten_createRels_length (nodes : List TargetNode) :
    ∀ pages : List (List RelationshipData),
      ((pages.map (createRelationshipsInTarget nodes)).flatten).length
        = ((pages.flatten).map (endpointMatches nodes)).sum
  | [] => rfl
  | p :: ps => by
    simp only [List.map_cons, List.flatten_cons, List.length_append,
      List.map_append, List.sum_append]
    rw [createRelationshipsInTarget_length, flatten_createRels_length nodes ps]

/-! ### Step-indexed loop lemmas -/

theorem loopIter_mono (total : Nat) (pageLen : Nat → Nat) :
    ∀ {m n : Nat}, m ≤ n → loopIter total pageLen m ≤ loopIter total pageLen n := by
  intro m n h
  induction n with
  | zero => simp_all
  | succ n ih =>
    rcases Nat.lt_or_ge m (n + 1) with h' | h'
    · have := ih (by omega)
      simp only [loopIter]
      by_cases hp : loopIter total pageLen n < total <;> simp [hp] <;> omega
    · have : m = n + 1 := by omega
      subst this
      exact Nat.le_refl _

/-- Once the loop sits at an offset below the total where the page query
    returns zero records, it stays there forever. -/
theorem loopIter_stuck (total : Nat) (pageLen : Nat → Nat) (n : Nat)
    (hlt : loopIter total pageLen n < total)
    (hzero : pageLen (loopIter total pageLen n) = 0) :
    ∀ k, loopIter total pageLen (n + k) = loopIter total pageLen n := by
  intro k
  induction k with
  | zero => rfl
  | succ k ih =>
    have : n + (k + 1) = (n + k) + 1 := by omega
    rw [this]
    simp only [loopIter, ih, hlt, if_pos, hzero]
    omega

/-! ### Claim theorems -/

/-- C9: the paging loops of the node and relationship copiers terminate
    only if every page fetched while the processed count is below the
    initially computed total returns at least one record; and there is an
    execution (a page query answering zero records below the total, e.g. a
    concurrently shrunk source) on which the loop never terminates, since
    the processed counter advances only by the number of records
    returned. -/
theorem C9_paging_termination :
    (∀ (total : Nat) (pageLen : Nat → Nat), loopTerminates total pageLen →
      ∀ n, loopIter total pageLen n < total →
        1 ≤ pageLen (loopIter total pageLen n)) ∧
    (∃ (total : Nat) (pageLen : Nat → Nat) (n : Nat),
      loopIter total pageLen n < total ∧
      pageLen (loopIter total pageLen n) = 0 ∧
      ¬ loopTerminates total pageLen) := by
  constructor
  · rintro total pageLen ⟨N, hN⟩ n hlt
    by_contra hz
    have hzero : pageLen (loopIter total pageLen n) = 0 := by omega
    have hstuck := loopIter_stuck total pageLen n hlt hzero
    rcases Nat.le_total N n with hle | hle
    · have hmono := loopIter_mono total pageLen hle
      omega
    · have h2 := hstuck (N - n)
      have heq : n + (N - n) = N := by omega
      rw [heq] at h2
      omega
  · refine ⟨1, fun _ => 0, 0, by simp [loopIter], rfl, ?_⟩
    rintro ⟨n, hn⟩
    have hz : ∀ m, loopIter 1 (fun _ => 0) m = 0 := by
      intro m
      induction m with
      | zero => rfl
      | succ m ih => simp [loopIter, ih]
    rw [hz n] at hn
    omega

/-- A witness for C9's first part: the loop with one-record pages and
    total 2 terminates, so below the total every page is nonempty. -/
theorem C9_paging_termination_witness :
    1 ≤ (fun _ : Nat => 1) (loopIter 2 (fun _ => 1) 0) :=
  C9_paging_termination.1 2 (fun _ => 1) ⟨2, by simp [loopIter]⟩ 0 (by simp [loopIter])

/-- A node whose single label contains a comma. -/
def nodeCommaLabel : NodeData :=
  ⟨1, ["A,B"], []⟩

/-- A node with the two labels B, A (the set with elements A and B). -/
def nodeTwoLabels : NodeData :=
  ⟨2, ["B", "A"], []⟩

/-- C10: the canonical label key is the comma-join of sorted labels and
    the label list is recovered by splitting on commas; hence a node whose
    single label is the string containing a comma between A and B is
    grouped with nodes whose label set consists of A and B, and is created
    in the target with the two labels A and B instead of its original
    single label. -/
theorem C10_comma_label_collision :
    labelKey nodeCommaLabel.labels = labelKey nodeTwoLabels.labels ∧
    lookupGroup (accGroup (fun n => labelKey n.labels)
        [nodeCommaLabel, nodeTwoLabels]) (labelKey nodeCommaLabel.labels)
      = some [nodeCommaLabel, nodeTwoLabels] ∧
    (⟨["A", "B"], [], some 1⟩ : TargetNode)
      ∈ createNodesInTarget [nodeCommaLabel, nodeTwoLabels] ∧
    ∀ tn ∈ createNodesInTarget [nodeCommaLabel, nodeTwoLabels],
      tn.labels ≠ ["A,B"] := by
  refine ⟨by decide, by decide, by decide, by decide⟩

/-- C6 counterexample: a source index of the default kind (`BTREE`) whose
    label list is empty is skipped as unsupported (no statement is
    generated), so not every index of that kind yields a creation
    statement. -/
theorem C6_counterexample :
    genIndexStatement ⟨"idx1", "BTREE", [], ["p"]⟩ = none := by
  decide

/-- Strings do not become empty by appending. -/
theorem append_ne_empty_of_left (a b : String) (ha : a.data ≠ []) :
    a ++ b ≠ "" := by
  intro h
  have hd := congrArg String.data h
  rw [String.data_append] at hd
  exact ha (List.append_eq_nil.mp hd).1

/-- C6 amended: for every source index of range/default (`BTREE`) kind
    whose descriptor lists at least one label with a nonempty first entry,
    the schema translator generates the plain property index creation
    statement and, when the target accepts it, executes it successfully
    (rather than skipping the index as unrecognized); a `BTREE` index with
    no usable label is skipped as unsupported (see the counterexample). -/
theorem C6_btree_plain_index (i : IndexDescriptor) (ht : i.type = "BTREE")
    (hl : 0 < i.labelsOrTypes.length) (hf : jsHead i.labelsOrTypes ≠ "") :
    genIndexStatement i
      = some ("CREATE INDEX " ++ i.name ++ " FOR (n:" ++ jsHead i.labelsOrTypes
          ++ ") ON (" ++ propList "n." i.properties ++ ")") ∧
    ∀ exec : String → ExecResult, (∀ s, exec s = ExecResult.ok) →
      runSchemaItem indexExistsCodes exec (genIndexStatement i)
        = ItemOutcome.created := by
  have hne : ("CREATE INDEX " ++ i.name ++ " FOR (n:" ++ jsHead i.labelsOrTypes
      ++ ") ON (" ++ propList "n." i.properties ++ ")") ≠ "" := by
    intro h
    have hlen := congrArg String.length h
    simp only [String.length_append] at hlen
    have h13 : ("CREATE INDEX " : String).length = 13 := rfl
    have h0 : ("" : String).length = 0 := rfl
    omega
  have hs : genIndexStatement i
      = some ("CREATE INDEX " ++ i.name ++ " FOR (n:" ++ jsHead i.labelsOrTypes
          ++ ") ON (" ++ propList "n." i.properties ++ ")") := by
    simp only [genIndexStatement, ht, if_pos, if_neg]
    simp [hl, hf, hne]
  refine ⟨hs, ?_⟩
  intro exec hok
  rw [hs, runSchemaItem, hok]

/-- A witness for C6's amended theorem at a concrete `BTREE` index. -/
theorem C6_btree_plain_index_witness :
    genIndexStatement ⟨"idx2", "BTREE", ["Person"], ["name"]⟩
      = some "CREATE INDEX idx2 FOR (n:Person) ON (n.name)" ∧
    runSchemaItem indexExistsCodes (fun _ => ExecResult.ok)
        (genIndexStatement ⟨"idx2", "BTREE", ["Person"], ["name"]⟩)
      = ItemOutcome.created := by
  have h := C6_btree_plain_index ⟨"idx2", "BTREE", ["Person"], ["name"]⟩ rfl
    (by decide) (by decide)
  refine ⟨?_, h.2 (fun _ => ExecResult.ok) (fun _ => rfl)⟩
  rw [h.1]
  rfl

/-- C7 counterexample: with an unexpected failure injected into the nodes
    stage, `replicateDatabase` logs and re-raises the error, but no
    driver-connection cleanup event is ever emitted by the run — `close()`
    is a separate method left to the caller. -/
theorem C7_counterexample :
    (replicateDatabaseRun (some StageName.nodes)).1 = Except.error "failure" ∧
    RunEvent.rethrown ∈ (replicateDatabaseRun (some StageName.nodes)).2 ∧
    RunEvent.driversClosed ∉ (replicateDatabaseRun (some StageName.nodes)).2 := by
  refine ⟨rfl, by decide, by decide⟩

/-- C7 amended: whenever an unexpected failure occurs in any stage of
    `replicateDatabase`, the error propagates to the orchestrator's top
    level, is logged and re-raised to the caller, and the failing stage's
    session resources are released (by its `finally`) before the re-raise;
    the driver connections themselves are not released by
    `replicateDatabase` — releasing them is `close()`, invoked by the
    caller. -/
theorem C7_failure_propagation (s : StageName) :
    (replicateDatabaseRun (some s)).1 = Except.error "failure" ∧
    (∃ pre, (replicateDatabaseRun (some s)).2
        = pre ++ [RunEvent.errorLogged, RunEvent.rethrown] ∧
      RunEvent.sessionClosed s ∈ pre) ∧
    RunEvent.driversClosed ∉ (replicateDatabaseRun (some s)).2 := by
  cases s
  case counts =>
    exact ⟨rfl, ⟨(replicateDatabaseRun (some StageName.counts)).2.dropLast.dropLast,
      by decide, by decide⟩, by decide⟩
  case clearing =>
    exact ⟨rfl, ⟨(replicateDatabaseRun (some StageName.clearing)).2.dropLast.dropLast,
      by decide, by decide⟩, by decide⟩
  case schema =>
    exact ⟨rfl, ⟨(replicateDatabaseRun (some StageName.schema)).2.dropLast.dropLast,
      by decide, by decide⟩, by decide⟩
  case nodes =>
    exact ⟨rfl, ⟨(replicateDatabaseRun (some StageName.nodes)).2.dropLast.dropLast,
      by decide, by decide⟩, by decide⟩
  case relationships =>
    exact ⟨rfl, ⟨(replicateDatabaseRun (some StageName.relationships)).2.dropLast.dropLast,
      by decide, by decide⟩, by decide⟩
  case cleanup =>
    exact ⟨rfl, ⟨(replicateDatabaseRun (some StageName.cleanup)).2.dropLast.dropLast,
      by decide, by decide⟩, by decide⟩

/-- C3: during the schema stage, every item is attempted: an "already
    exists" error from the target is classified success-equivalent (logged,
    loop continues), any other per-item failure is logged and only that
    item is skipped, and the stage completes with one outcome per item —
    for every possible target behaviour, however many items fail. -/
theorem C3_schema_error_tolerance (exec : String → ExecResult)
    (cs : List ConstraintDescriptor) (idxs : List IndexDescriptor) :
    ((copySchema exec cs idxs).1.length = cs.length ∧
      (copySchema exec cs idxs).2.length = idxs.length) ∧
    (∀ k : Nat, (copySchema exec cs idxs).1[k]?
        = (cs[k]?).map (fun c =>
            runSchemaItem constraintExistsCodes exec (genConstraintStatement c))) ∧
    (∀ k : Nat, (copySchema exec cs idxs).2[k]?
        = (idxs[k]?).map (fun i =>
            runSchemaItem indexExistsCodes exec (genIndexStatement i))) ∧
    (∀ c ∈ cs, ∀ stmt, genConstraintStatement c = some stmt →
      ∀ code msg, exec stmt = ExecResult.err code msg →
        (code ∈ constraintExistsCodes →
          runSchemaItem constraintExistsCodes exec (genConstraintStatement c)
            = ItemOutcome.alreadyExists) ∧
        (code ∉ constraintExistsCodes →
          runSchemaItem constraintExistsCodes exec (genConstraintStatement c)
            = ItemOutcome.failedOther)) ∧
    (∀ i ∈ idxs, ∀ stmt, genIndexStatement i = some stmt →
      ∀ code msg, exec stmt = ExecResult.err code msg →
        (code ∈ indexExistsCodes →
          runSchemaItem indexExistsCodes exec (genIndexStatement i)
            = ItemOutcome.alreadyExists) ∧
        (code ∉ indexExistsCodes →
          runSchemaItem indexExistsCodes exec (genIndexStatement i)
            = ItemOutcome.failedOther)) := by
  refine ⟨⟨by simp [copySchema], by simp [copySchema]⟩, ?_, ?_, ?_, ?_⟩
  · intro k
    simp [copySchema]
  · intro k
    simp [copySchema]
  · intro c _ stmt hstmt code msg hexec
    constructor <;> intro hcode <;> simp [runSchemaItem, hstmt, hexec, hcode]
  · intro i _ stmt hstmt code msg hexec
    constructor <;> intro hcode <;> simp [runSchemaItem, hstmt, hexec, hcode]

/-- A target that reports every statement as an already-existing
    constraint. -/
def execAlreadyExists : String → ExecResult :=
  fun _ => ExecResult.err "Neo.ClientError.Schema.ConstraintAlreadyExists"
    "constraint already exists"

/-- A concrete uniqueness constraint descriptor. -/
def exampleConstraint : ConstraintDescriptor :=
  ⟨"c1", "UNIQUENESS", "NODE", ["Person"], ["name"]⟩

/-- A witness for C3 at one constraint whose creation reports "already
    exists": the outcome is success-equivalent and the stage yields one
    outcome for the item. -/
theorem C3_schema_error_tolerance_witness :
    (copySchema execAlreadyExists [exampleConstraint] []).1.length = 1 ∧
    runSchemaItem constraintExistsCodes execAlreadyExists
        (genConstraintStatement exampleConstraint)
      = ItemOutcome.alreadyExists := by
  have h := C3_schema_error_tolerance execAlreadyExists [exampleConstraint] []
  refine ⟨h.1.1, ?_⟩
  exact (h.2.2.2.1 exampleConstraint (List.mem_singleton.mpr rfl)
    "CREATE CONSTRAINT c1 FOR (n:Person) REQUIRE (n.name) IS UNIQUE" (by decide)
    "Neo.ClientError.Schema.ConstraintAlreadyExists" "constraint already exists"
    rfl).1 (by decide)

/-- Five source nodes for the batch-boundary scenario of the spec. -/
def fiveNodes : List NodeData :=
  [⟨0, [], []⟩, ⟨1, [], []⟩, ⟨2, [], []⟩, ⟨3, [], []⟩, ⟨4, [], []⟩]

/-- C4: with batch size 2 and a source of exactly 5 nodes, the node
    copier's paging loop issues exactly 3 paging requests fetching 2, 2
    and 1 nodes, and reports the cumulative processed counts 2, 4, 5 in
    that order to the progress callback (for any fuel covering the three
    iterations the `while` loop actually runs). -/
theorem C4_batch_boundary (fuel : Nat) (h : 3 ≤ fuel) :
    (pageLoop 2 fiveNodes fuel 0).1.length = 3 ∧
    (pageLoop 2 fiveNodes fuel 0).1.map List.length = [2, 2, 1] ∧
    (pageLoop 2 fiveNodes fuel 0).2 = [2, 4, 5] := by
  obtain ⟨k, rfl⟩ : ∃ k, fuel = k + 3 := ⟨fuel - 3, by omega⟩
  have hstop : pageLoop 2 [(⟨0, [], []⟩ : NodeData), ⟨1, [], []⟩, ⟨2, [], []⟩,
      ⟨3, [], []⟩, ⟨4, [], []⟩] k 5 = ([], []) :=
    pageLoop_of_le _ _ _ _ (by decide)
  refine ⟨?_, ?_, ?_⟩ <;> simp [pageLoop, fiveNodes, hstop]

/-- A witness for C4 at the minimal sufficient fuel. -/
theorem C4_batch_boundary_witness :
    (pageLoop 2 fiveNodes 3 0).1.length = 3 ∧
    (pageLoop 2 fiveNodes 3 0).1.map List.length = [2, 2, 1] ∧
    (pageLoop 2 fiveNodes 3 0).2 = [2, 4, 5] :=
  C4_batch_boundary 3 (Nat.le_refl 3)

/-- C5: any two nodes of a batch whose label sets are equal as sets
    (regardless of storage order) receive the same canonical sorted-joined
    label key and are placed in the same group by the node copier;
    differing label orderings never create distinct groups. -/
theorem C5_label_set_grouping (batch : List NodeData) (n1 n2 : NodeData)
    (h1 : n1 ∈ batch) (h2 : n2 ∈ batch)
    (hnd1 : n1.labels.Nodup) (hnd2 : n2.labels.Nodup)
    (hset : ∀ s, s ∈ n1.labels ↔ s ∈ n2.labels) :
    labelKey n1.labels = labelKey n2.labels ∧
    ∃ group, lookupGroup (accGroup (fun n => labelKey n.labels) batch)
        (labelKey n1.labels) = some group ∧
      (labelKey n1.labels, group) ∈ accGroup (fun n => labelKey n.labels) batch ∧
      n1 ∈ group ∧ n2 ∈ group := by
  have hperm : List.Perm n1.labels n2.labels :=
    (List.perm_ext_iff_of_nodup hnd1 hnd2).mpr hset
  have hps : List.Perm (sortLabels n1.labels) (sortLabels n2.labels) :=
    ((List.perm_insertionSort _ n1.labels).trans hperm).trans
      (List.perm_insertionSort _ n2.labels).symm
  have hsorteq : sortLabels n1.labels = sortLabels n2.labels :=
    List.eq_of_perm_of_sorted hps
      (List.sorted_insertionSort _ n1.labels)
      (List.sorted_insertionSort _ n2.labels)
  have hk : labelKey n1.labels = labelKey n2.labels := by
    rw [labelKey, labelKey, hsorteq]
  refine ⟨hk, ?_⟩
  have hm1 : n1 ∈ (lookupGroup (accGroup (fun n => labelKey n.labels) batch)
      (labelKey n1.labels)).getD [] :=
    mem_lookup_accGroup batch n1 h1
  have hm2 : n2 ∈ (lookupGroup (accGroup (fun n => labelKey n.labels) batch)
      (labelKey n2.labels)).getD [] :=
    mem_lookup_accGroup batch n2 h2
  rw [← hk] at hm2
  cases hg : lookupGroup (accGroup (fun n => labelKey n.labels) batch)
      (labelKey n1.labels) with
  | none =>
    rw [hg] at hm1
    simp at hm1
  | some group =>
    rw [hg] at hm1 hm2
    exact ⟨group, rfl, lookupGroup_mem _ _ _ hg, by simpa using hm1,
      by simpa using hm2⟩

/-- A node with labels stored in the order A, B. -/
def nodeAB : NodeData :=
  ⟨10, ["A", "B"], []⟩

/-- A node with the same label set stored in the order B, A. -/
def nodeBA : NodeData :=
  ⟨11, ["B", "A"], []⟩

/-- A witness for C5 at two nodes storing the same label set in opposite
    orders. -/
theorem C5_label_set_grouping_witness :
    labelKey nodeAB.labels = labelKey nodeBA.labels ∧
    ∃ group, lookupGroup (accGroup (fun n => labelKey n.labels)
        [nodeAB, nodeBA]) (labelKey nodeAB.labels) = some group ∧
      (labelKey nodeAB.labels, group)
        ∈ accGroup (fun n => labelKey n.labels) [nodeAB, nodeBA] ∧
      nodeAB ∈ group ∧ nodeBA ∈ group :=
  C5_label_set_grouping [nodeAB, nodeBA] nodeAB nodeBA (by decide) (by decide)
    (by decide) (by decide)
    (fun s => by
      simp only [nodeAB, nodeBA, List.mem_cons, List.not_mem_nil, or_false]
      tauto)

/-- C8: every source node with an empty label set still gets created in
    the target as an unlabeled node — it is grouped under the empty label
    key (a valid group), the key recovers an empty label list, the
    generated `CREATE` statement has no label clause, and the created
    target node carries the node's properties and `source_id`. -/
theorem C8_empty_label_set (batch : List NodeData) (n : NodeData)
    (hn : n ∈ batch) (hl : n.labels = []) :
    labelKey n.labels = "" ∧
    labelsOfKey (labelKey n.labels) = [] ∧
    labelClause (labelsOfKey (labelKey n.labels)) = "" ∧
    (⟨[], n.properties, some n.nodeId⟩ : TargetNode)
      ∈ createNodesInTarget batch := by
  have hkey : labelKey n.labels = "" := by rw [hl]; rfl
  refine ⟨hkey, by rw [hkey]; rfl, by rw [hkey]; rfl, ?_⟩
  have hm : n ∈ (lookupGroup (accGroup (fun n => labelKey n.labels) batch)
      (labelKey n.labels)).getD [] :=
    mem_lookup_accGroup batch n hn
  cases hg : lookupGroup (accGroup (fun n => labelKey n.labels) batch)
      (labelKey n.labels) with
  | none =>
    rw [hg] at hm
    simp at hm
  | some group =>
    rw [hg] at hm
    simp only [Option.getD_some] at hm
    have hmem := lookupGroup_mem _ _ _ hg
    unfold createNodesInTarget
    rw [List.mem_flatten]
    refine ⟨group.map (mkTargetNode (labelKey n.labels)), ?_, ?_⟩
    · exact List.mem_map_of_mem (fun g => g.2.map (mkTargetNode g.1)) hmem
    · have heq : mkTargetNode (labelKey n.labels) n
          = ⟨[], n.properties, some n.nodeId⟩ := by
        rw [mkTargetNode, hkey]
        rfl
      rw [← heq]
      exact List.mem_map_of_mem _ hm

/-- A witness for C8 at a label-free node. -/
theorem C8_empty_label_set_witness :
    labelKey ([] : List String) = "" ∧
    labelsOfKey (labelKey ([] : List String)) = [] ∧
    labelClause (labelsOfKey (labelKey ([] : List String))) = "" ∧
    (⟨[], [("p", "v")], some 7⟩ : TargetNode)
      ∈ createNodesInTarget [⟨7, [], [("p", "v")]⟩] := by
  have h := C8_empty_label_set [⟨7, [], [("p", "v")]⟩] ⟨7, [], [("p", "v")]⟩
    (List.mem_singleton.mpr rfl) rfl
  exact h

/-- C2: every run of `replicateDatabase` proceeds strictly sequentially
    through the fixed stage order and invokes the observer synchronously
    after every stage transition and after every processed page: the
    emitted stage tags are exactly clearing, schema, nodes (once per page
    of nodes after the transition), relationships (once per page of
    relationships after the transition), cleanup, complete, in that order,
    with one observer call per page (the per-stage page report count
    equals the page count). -/
theorem C2_stage_sequence (batchSize fuel : Nat) (src : SourceGraph) :
    (replicateModel batchSize src fuel).2.map (fun p => p.stage)
      = [Stage.clearing, Stage.schema, Stage.nodes]
        ++ List.replicate (pageLoop batchSize src.nodes fuel 0).2.length
            Stage.nodes
        ++ [Stage.relationships]
        ++ List.replicate (pageLoop (batchSize / 2) src.rels fuel 0).2.length
            Stage.relationships
        ++ [Stage.cleanup, Stage.complete] ∧
    (pageLoop batchSize src.nodes fuel 0).2.length
      = (pageLoop batchSize src.nodes fuel 0).1.length ∧
    (pageLoop (batchSize / 2) src.rels fuel 0).2.length
      = (pageLoop (batchSize / 2) src.rels fuel 0).1.length := by
  refine ⟨?_, length_snd_pageLoop _ _ _ _, length_snd_pageLoop _ _ _ _⟩
  simp [replicateModel, List.map_map, Function.comp_def, List.map_const']

/-- C1: on a well-formed static source graph (pairwise-distinct node ids,
    relationship endpoints that refer to source nodes) with no write
    failures, a batch size of at least 2 and fuel covering the loops,
    `replicateDatabase` ends with the target containing exactly N nodes
    and exactly M relationships, and the transient `source_id` property is
    absent from every target node after the run. -/
theorem C1_count_preservation (batchSize fuel : Nat) (src : SourceGraph)
    (hb : 2 ≤ batchSize)
    (hfn : src.nodes.length ≤ fuel) (hfr : src.rels.length ≤ fuel)
    (hids : (src.nodes.map (fun n => n.nodeId)).Nodup)
    (hwf : ∀ r ∈ src.rels, r.startId ∈ src.nodes.map (fun n => n.nodeId)
        ∧ r.endId ∈ src.nodes.map (fun n => n.nodeId)) :
    (replicateModel batchSize src fuel).1.nodes.length = src.nodes.length ∧
    (replicateModel batchSize src fuel).1.rels.length = src.rels.length ∧
    ∀ tn ∈ (replicateModel batchSize src fuel).1.nodes, tn.sourceId = none := by
  have hb1 : 1 ≤ batchSize := by omega
  have hb2 : 1 ≤ batchSize / 2 := Nat.one_le_div_iff (by omega) |>.mpr hb
  have hNpages : ((pageLoop batchSize src.nodes fuel 0).1).flatten = src.nodes := by
    have h := pageLoop_flatten batchSize src.nodes fuel 0 hb1 (by omega)
    simpa using h
  have hRpages : ((pageLoop (batchSize / 2) src.rels fuel 0).1).flatten
      = src.rels := by
    have h := pageLoop_flatten (batchSize / 2) src.rels fuel 0 hb2 (by omega)
    simpa using h
  have hTperm : List.Perm
      (((pageLoop batchSize src.nodes fuel 0).1.map createNodesInTarget).flatten)
      (src.nodes.map targetOf) := by
    have h := flatten_createNodes_perm (pageLoop batchSize src.nodes fuel 0).1
    rw [hNpages] at h
    exact h
  have hmodel : (replicateModel batchSize src fuel).1
      = ⟨(((pageLoop batchSize src.nodes fuel 0).1.map
            createNodesInTarget).flatten).map
          (fun tn => { tn with sourceId := none }),
         ((pageLoop (batchSize / 2) src.rels fuel 0).1.map
           (createRelationshipsInTarget
             (((pageLoop batchSize src.nodes fuel 0).1.map
               createNodesInTarget).flatten))).flatten⟩ := rfl
  rw [hmodel]
  refine ⟨?_, ?_, ?_⟩
  · simp only [List.length_map]
    rw [hTperm.length_eq, List.length_map]
  · rw [flatten_createRels_length, hRpages]
    have hone : ∀ r ∈ src.rels,
        endpointMatches
          (((pageLoop batchSize src.nodes fuel 0).1.map
            createNodesInTarget).flatten) r = 1 := by
      intro r hr
      have hs := matchNodes_length_one src.nodes _ hTperm r.startId hids
        (hwf r hr).1
      have he := matchNodes_length_one src.nodes _ hTperm r.endId hids
        (hwf r hr).2
      rw [endpointMatches, hs, he]
    rw [List.map_congr_left hone, List.map_const']
    simp
  · intro tn htn
    simp only [List.mem_map] at htn
    obtain ⟨tn', _, rfl⟩ := htn
    rfl

/-- A concrete two-node, one-relationship source graph. -/
def smallGraph : SourceGraph :=
  ⟨[⟨0, ["A"], [("p", "v")]⟩, ⟨1, [], []⟩], [⟨0, 1, "R", [("w", "1")]⟩]⟩

/-- A witness for C1 at a concrete two-node, one-relationship graph. -/
theorem C1_count_preservation_witness :
    (replicateModel 2 smallGraph 3).1.nodes.length = 2 ∧
    (replicateModel 2 smallGraph 3).1.rels.length = 1 ∧
    ∀ tn ∈ (replicateModel 2 smallGraph 3).1.nodes, tn.sourceId = none := by
  have h := C1_count_preservation 2 3 smallGraph (Nat.le_refl 2)
    (by decide) (by decide) (by decide) (by decide)
  simpa [smallGraph] using h

end PrereqReplicator
